import Mathlib

/-!
Verification development for `src/garmin.py` (fit_file_uploader).

The Python script rewrites device-attribution fields of FIT activity files
(`edit_fit`), uploads the rewritten file to Garmin Connect (`upload`), and
orchestrates a per-directory batch with a persisted ledger of already
uploaded files (`upload_all`).  The definitions below are a shallow
embedding of those functions; external collaborators (the fit_tool codec,
the garth upload client, the filesystem) are represented by explicit
inputs: the decoded message sequence, the service response per file, and
the on-disk ledger content.
-/

namespace GarminFit

/-! ### Profile constants (fit_tool.profile.profile_type)

Numeric values of the profile enum members used by the script:
`Manufacturer.DEVELOPMENT`, `Manufacturer.GARMIN`,
`Manufacturer.WAHOO_FITNESS` and `GarminProduct.EDGE_830`. -/

def DEVELOPMENT : Nat := 255

def GARMIN : Nat := 1

def WAHOO_FITNESS : Nat := 32

def EDGE_830 : Nat := 3122

/-! ### Messages and the rewrite performed by `edit_fit` -/

/-- Discriminant of a decoded record's message, per the `global_id` /
`isinstance` checks in `edit_fit` (src/garmin.py:220-233): a
`FileIdMessage`, a `DeviceInfoMessage`, or any other message kind. -/
inductive MsgKind where
  | fileId
  | deviceInfo
  | other
deriving DecidableEq, Repr

/-- A decoded FIT record's message with the integer fields the script reads
or writes: `manufacturer`, `product`, `garmin_product` and (for file-id
messages) `time_created`.  Fields are modelled as naturals; messages whose
fields are unset (`None` in Python) are outside this model except for the
explicit `manufacturer == 0` check, which the code performs on the integer
value. -/
structure Message where
  kind : MsgKind
  manufacturer : Nat
  product : Nat
  garmin_product : Nat
  time_created : Nat
deriving DecidableEq, Repr

/-- Per-record body of the `edit_fit` loop (src/garmin.py:216-246): a
`FileIdMessage` with `manufacturer == DEVELOPMENT` gets
`product := EDGE_830` and `manufacturer := GARMIN`; a `DeviceInfoMessage`
with `manufacturer` equal to `DEVELOPMENT`, `0` or `WAHOO_FITNESS` gets
`garmin_product := EDGE_830`, `product := EDGE_830` and
`manufacturer := GARMIN`; every other message is left unchanged. -/
def rewriteMessage (m : Message) : Message :=
  match m.kind with
  | MsgKind.fileId =>
      if m.manufacturer = DEVELOPMENT then
        { m with product := EDGE_830, manufacturer := GARMIN }
      else m
  | MsgKind.deviceInfo =>
      if m.manufacturer = DEVELOPMENT ∨ m.manufacturer = 0 ∨
          m.manufacturer = WAHOO_FITNESS then
        { m with garmin_product := EDGE_830, product := EDGE_830,
                 manufacturer := GARMIN }
      else m
  | MsgKind.other => m

/-- Result of decoding a FIT file: the ordered record sequence
(`FitFile.from_file(...).records`). -/
structure FitFile where
  records : List Message
deriving DecidableEq, Repr

/-- Model of `edit_fit` (src/garmin.py:197-257).  The argument is the
decode result: `none` when `FitFile.from_file` raises (the `except` branch
at src/garmin.py:205-208 returns `None`), otherwise the decoded record
sequence.  On success the function returns the message sequence handed to
the builder: the loop appends every record's message, rewritten or not,
via `builder.add(message)` (src/garmin.py:246). -/
def edit_fit (decoded : Option FitFile) : Option (List Message) :=
  match decoded with
  | none => none
  | some ff => some (ff.records.map rewriteMessage)

/-! ### Candidate-file computation of `upload_all` (src/garmin.py:324-331)

The glob result `str(i)` for a directory entry is rendered as
`dirStr ++ "/" ++ name` (the POSIX join produced by `pathlib` for a
normalized, non-root directory), and the Python string operations
`str.replace`, `str.strip` and `str.endswith` are embedded on `List Char`. -/

/-- Python `s.replace(pat, "")` restricted to the script's use (the
replacement string is empty): a left-to-right, non-overlapping scan that
deletes every occurrence of `pat`.  The first argument is fuel, one unit
per scanned character, so `pyReplace` below supplies `l.length`. -/
def pyReplaceAux (pat : List Char) : Nat → List Char → List Char
  | 0, l => l
  | _ + 1, [] => []
  | fuel + 1, c :: rest =>
      if pat ≠ [] ∧ pat.isPrefixOf (c :: rest) then
        pyReplaceAux pat fuel (rest.drop (pat.length - 1))
      else
        c :: pyReplaceAux pat fuel rest

/-- Python `s.replace(pat, "")` (src/garmin.py:327 uses
`i.replace(str(dir), "")`). -/
def pyReplace (pat l : List Char) : List Char :=
  pyReplaceAux pat l.length l

/-- Python `s.strip(ch)` for a single-character set: removes all leading
and all trailing occurrences of `ch`. -/
def stripChar (ch : Char) (l : List Char) : List Char :=
  ((l.dropWhile (fun c => c = ch)).reverse.dropWhile (fun c => c = ch)).reverse

/-- Python `i.endswith("_modified.fit")` (src/garmin.py:329). -/
def endsWithModifiedFit (s : String) : Bool :=
  "_modified.fit".data.isSuffixOf s.data

/-- The identifier stored for a globbed file:
`str(i).replace(str(dir), "").strip("/").strip("\\")`
(src/garmin.py:325-327), where `str(i) = dirStr ++ "/" ++ name`. -/
def normalizeName (dirStr name : String) : String :=
  ⟨stripChar '\\' (stripChar '/'
      (pyReplace dirStr.data (dirStr.data ++ '/' :: name.data)))⟩

/-- The candidate list of `upload_all` (src/garmin.py:324-331): normalize
every globbed `*.fit` entry, drop names ending in `_modified.fit`, drop
names already present in the loaded ledger.  `fitFiles` is the list of
base names matched by `dir.glob("*.fit", case_sensitive=False)`, in
enumeration order. -/
def candidateIds (dirStr : String) (fitFiles uploaded_files : List String) :
    List String :=
  (((fitFiles.map (fun name => normalizeName dirStr name)).filter
      (fun i => !endsWithModifiedFit i)).filter
    (fun i => !uploaded_files.contains i))

/-! ### Ledger operations

The script keeps the ledger inline in `upload_all`: it is the JSON list
`uploaded_files`, loaded at src/garmin.py:313-321, appended to at
src/garmin.py:353 and written back at src/garmin.py:355-357.  JSON
round-tripping of a list of strings is assumed faithful, so `flush` and
`load` carry the list through unchanged. -/

/-- `uploaded_files.append(f)` (src/garmin.py:353). -/
def record (uploaded_files : List String) (p : String) : List String :=
  uploaded_files ++ [p]

/-- `json.dump(uploaded_files, f, indent=2)` (src/garmin.py:356-357): the
on-disk content after a flush. -/
def flush (uploaded_files : List String) : List String :=
  uploaded_files

/-- `json.load(f)` (src/garmin.py:315-316): the in-memory list read back
from the on-disk content. -/
def load (disk : List String) : List String :=
  disk

/-- Membership test `i in uploaded_files` / `i not in uploaded_files`
(src/garmin.py:331). -/
def contains (uploaded_files : List String) (p : String) : Bool :=
  uploaded_files.contains p

/-! ### The upload step and the batch orchestrator -/

/-- Response of the garth client to one upload attempt: acknowledged, or a
`GarthHTTPError` with the given HTTP status. -/
inductive UploadResp where
  | ok
  | httpErr (status : Nat)
deriving DecidableEq, Repr

/-- Model of the upload body of `upload` (src/garmin.py:292-308).  Under
`dryrun` the client call is skipped entirely, so nothing can be raised.
Otherwise `garth.client.upload` is invoked once; a `GarthHTTPError` with
status 409 is swallowed with a warning, any other status is re-raised.
The result pairs the control outcome (`Except.error s` models the
re-raised exception) with the number of `garth.client.upload`
invocations. -/
def upload (dryrun : Bool) (resp : UploadResp) : Except Nat Unit × Nat :=
  if dryrun then (Except.ok (), 0)
  else
    match resp with
    | UploadResp.ok => (Except.ok (), 1)
    | UploadResp.httpErr s =>
        (if s = 409 then Except.ok () else Except.error s, 1)

/-- Environment of one `upload_all` call: the directory string, the glob
result, and the behavior of the external collaborators per candidate
identifier: the decode result used by `edit_fit`, and the service
response used by `upload`. -/
structure Env where
  dirStr : String
  fitFiles : List String
  decode : String → Option FitFile
  resp : String → UploadResp

/-- Mutable state threaded through the `for f in files` loop of
`upload_all`: the in-memory `uploaded_files` list and the number of
client upload invocations so far. -/
structure BatchState where
  uploaded_files : List String
  clientCalls : Nat
deriving DecidableEq, Repr

/-- The per-file loop of `upload_all` (src/garmin.py:339-353).  With
`pre` (preinitialize) the file is only marked; otherwise `edit_fit` runs,
and when it returns an output the file is uploaded.  In every non-raising
path the iteration ends with `uploaded_files.append(f)`
(src/garmin.py:353).  A hard upload error propagates out of the loop
(`Except.error`), carrying the state at that moment: the current file has
not been appended. -/
def uploadLoop (env : Env) (pre dryrun : Bool) :
    List String → BatchState → Except (Nat × BatchState) BatchState
  | [], st => Except.ok st
  | f :: rest, st =>
      if pre then
        uploadLoop env pre dryrun rest
          { st with uploaded_files := record st.uploaded_files f }
      else
        match edit_fit (env.decode f) with
        | some _ =>
            match upload dryrun (env.resp f) with
            | (Except.ok _, k) =>
                uploadLoop env pre dryrun rest
                  { uploaded_files := record st.uploaded_files f,
                    clientCalls := st.clientCalls + k }
            | (Except.error s, k) =>
                Except.error (s, { st with clientCalls := st.clientCalls + k })
        | none =>
            uploadLoop env pre dryrun rest
              { st with uploaded_files := record st.uploaded_files f }

/-- Observable outcome of one `upload_all` call. -/
structure UploadAllResult where
  disk : Option (List String)
  raised : Option Nat
  uploaded_files : List String
  clientCalls : Nat
deriving DecidableEq, Repr

/-- Model of `upload_all` (src/garmin.py:311-357).  `disk0` is the on-disk
content of `.uploaded_files.json` before the call (`none` when the file
is absent).  The code writes a blank ledger file when none exists
(src/garmin.py:317-321, unconditionally, dryrun included), computes the
candidate list, returns early when it is empty (src/garmin.py:336-337,
skipping the flush), runs the loop, and flushes the full in-memory list
unless `dryrun` (src/garmin.py:355-357).  A hard upload error propagates
out of the call before any flush. -/
def upload_all (env : Env) (disk0 : Option (List String)) (pre dryrun : Bool) :
    UploadAllResult :=
  let uploaded0 := load (disk0.getD [])
  let disk1 : Option (List String) := some (disk0.getD [])
  let files := candidateIds env.dirStr env.fitFiles uploaded0
  if files.isEmpty then
    { disk := disk1, raised := none, uploaded_files := uploaded0,
      clientCalls := 0 }
  else
    match uploadLoop env pre dryrun files
        { uploaded_files := uploaded0, clientCalls := 0 } with
    | Except.ok st =>
        { disk := if dryrun then disk1 else some (flush st.uploaded_files),
          raised := none, uploaded_files := st.uploaded_files,
          clientCalls := st.clientCalls }
    | Except.error (s, st) =>
        { disk := disk1, raised := some s,
          uploaded_files := st.uploaded_files, clientCalls := st.clientCalls }

/-! ### Helper lemmas -/

theorem rewriteMessage_kind (m : Message) : (rewriteMessage m).kind = m.kind := by
  rcases m with ⟨k, man, p, g, t⟩
  cases k <;> simp only [rewriteMessage] <;> split <;> rfl

theorem dropWhile_ne_eq_self {ch : Char} {l : List Char} (h : ch ∉ l) :
    l.dropWhile (fun c => c = ch) = l := by
  cases l with
  | nil => rfl
  | cons a t =>
      have ha : a ≠ ch := by
        rintro rfl
        exact h (List.mem_cons_self _ _)
      simp [List.dropWhile_cons, ha]

theorem stripChar_eq_self {ch : Char} {l : List Char} (h : ch ∉ l) :
    stripChar ch l = l := by
  unfold stripChar
  rw [dropWhile_ne_eq_self h, dropWhile_ne_eq_self (by simpa using h),
    List.reverse_reverse]

theorem pyReplaceAux_eq_self {pat l : List Char} {fuel : Nat}
    (h : ¬ pat <:+: l) : pyReplaceAux pat fuel l = l := by
  induction fuel generalizing l with
  | zero => rfl
  | succ fuel ih =>
      cases l with
      | nil => rfl
      | cons c rest =>
          have hcond : ¬ (pat ≠ [] ∧ pat.isPrefixOf (c :: rest) = true) := by
            rintro ⟨-, hp⟩
            exact h (List.IsPrefix.isInfix ( List.isPrefixOf_iff_prefix.mp hp))
          rw [pyReplaceAux, if_neg hcond]
          have hrest : ¬ pat <:+: rest := fun hi => h (List.infix_cons hi)
          rw [ih hrest]

theorem pyReplace_strip {pat x : List Char} (hne : pat ≠ [])
    (h : ¬ pat <:+: x) : pyReplace pat (pat ++ x) = x := by
  cases pat with
  | nil => exact absurd rfl hne
  | cons p pt =>
      have hpre : (p :: pt).isPrefixOf ((p :: pt) ++ x) = true :=
        List.isPrefixOf_iff_prefix.mpr (List.prefix_append (p :: pt) x)
      show pyReplaceAux (p :: pt) ((p :: pt) ++ x).length ((p :: pt) ++ x) = x
      have hlen : ((p :: pt) ++ x).length = (pt ++ x).length + 1 := by simp
      rw [hlen]
      rw [show (p :: pt) ++ x = p :: (pt ++ x) from rfl] at hpre ⊢
      rw [pyReplaceAux, if_pos ⟨List.cons_ne_nil p pt, hpre⟩]
      have hdrop : (pt ++ x).drop ((p :: pt).length - 1) = x := by
        simp [List.drop_left]
      rw [hdrop, pyReplaceAux_eq_self h]

theorem normalizeName_eq_self {dirStr name : String}
    (hocc : ¬ dirStr.data <:+: ('/' :: name.data))
    (hs : '/' ∉ name.data) (hb : '\\' ∉ name.data) :
    normalizeName dirStr name = name := by
  have hne : dirStr.data ≠ [] := by
    rintro hnil
    rw [hnil] at hocc
    exact hocc List.nil_infix
  unfold normalizeName
  rw [pyReplace_strip hne hocc]
  have h1 : stripChar '/' ('/' :: name.data) = name.data := by
    unfold stripChar
    rw [List.dropWhile_cons]
    simp only [decide_True, if_true]
    rw [dropWhile_ne_eq_self hs, dropWhile_ne_eq_self (by simpa using hs),
      List.reverse_reverse]
  rw [h1, stripChar_eq_self hb]

theorem upload_error_elim {dryrun : Bool} {r : UploadResp} {s k : Nat}
    (h : upload dryrun r = (Except.error s, k)) :
    dryrun = false ∧ r = UploadResp.httpErr s ∧ s ≠ 409 := by
  cases dryrun with
  | true => simp [upload] at h
  | false =>
      cases r with
      | ok => simp [upload] at h
      | httpErr s0 =>
          by_cases h409 : s0 = 409
          · simp [upload, h409] at h
          · simp only [upload, if_neg h409, Prod.mk.injEq,
              Except.error.injEq] at h
            obtain ⟨rfl, -⟩ := h
            exact ⟨rfl, rfl, h409⟩

theorem uploadLoop_ok_uploaded {env : Env} {pre dryrun : Bool}
    {fs : List String} {st st' : BatchState}
    (h : uploadLoop env pre dryrun fs st = Except.ok st') :
    st'.uploaded_files = st.uploaded_files ++ fs := by
  induction fs generalizing st with
  | nil =>
      simp only [uploadLoop] at h
      cases h
      simp
  | cons f rest ih =>
      rw [uploadLoop] at h
      split at h
      · rw [ih h]
        simp [record]
      · split at h
        · split at h
          · rw [ih h]
            simp [record]
          · exact absurd h (by simp)
        · rw [ih h]
          simp [record]

theorem uploadLoop_dryrun {env : Env} {pre : Bool} {fs : List String}
    {st : BatchState} :
    uploadLoop env pre true fs st =
      Except.ok { uploaded_files := st.uploaded_files ++ fs,
                  clientCalls := st.clientCalls } := by
  induction fs generalizing st with
  | nil => simp [uploadLoop]
  | cons f rest ih =>
      rw [uploadLoop]
      split
      · rw [ih]
        simp [record]
      · split
        · split
          · rename_i a k heq
            simp only [upload, if_pos rfl, Prod.mk.injEq] at heq
            obtain ⟨-, rfl⟩ := heq
            rw [ih]
            simp [record]
          · rename_i s k heq
            simp [upload] at heq
        · rw [ih]
          simp [record]

theorem uploadLoop_conflict {env : Env} {fs : List String} {st : BatchState}
    (h : ∀ f, env.resp f = UploadResp.httpErr 409) :
    ∃ k, uploadLoop env false false fs st =
      Except.ok { uploaded_files := st.uploaded_files ++ fs,
                  clientCalls := k } := by
  induction fs generalizing st with
  | nil => exact ⟨st.clientCalls, by simp [uploadLoop]⟩
  | cons f rest ih =>
      rw [uploadLoop]
      simp only [if_neg (by simp : ¬ (false = true))]
      split
      · split
        · rename_i msgs hmsgs a k heq
          obtain ⟨k2, hk2⟩ := @ih { uploaded_files := record st.uploaded_files f,
                                    clientCalls := st.clientCalls + k }
          refine ⟨k2, ?_⟩
          rw [hk2]
          simp [record]
        · rename_i msgs hmsgs s k heq
          rw [h f] at heq
          simp [upload] at heq
      · obtain ⟨k, hk⟩ :=
          @ih { st with uploaded_files := record st.uploaded_files f }
        refine ⟨k, ?_⟩
        rw [hk]
        simp [record]

theorem uploadLoop_decode_failed {env : Env} {dryrun : Bool}
    {fs : List String} {st : BatchState}
    (h : ∀ f ∈ fs, env.decode f = none) :
    uploadLoop env false dryrun fs st =
      Except.ok { uploaded_files := st.uploaded_files ++ fs,
                  clientCalls := st.clientCalls } := by
  induction fs generalizing st with
  | nil => simp [uploadLoop]
  | cons f rest ih =>
      rw [uploadLoop]
      simp only [if_neg (by simp : ¬ (false = true))]
      rw [h f (List.mem_cons_self _ _)]
      show uploadLoop env false dryrun rest
          { st with uploaded_files := record st.uploaded_files f } =
        Except.ok { uploaded_files := st.uploaded_files ++ f :: rest,
                    clientCalls := st.clientCalls }
      rw [ih (fun g hg => h g (List.mem_cons_of_mem _ hg))]
      simp [record]

theorem uploadLoop_error_source {env : Env} {dryrun : Bool} {fs : List String}
    {st st' : BatchState} {s : Nat}
    (h : uploadLoop env false dryrun fs st = Except.error (s, st')) :
    ∃ f ∈ fs, env.decode f ≠ none ∧ dryrun = false ∧
      env.resp f = UploadResp.httpErr s ∧ s ≠ 409 := by
  induction fs generalizing st with
  | nil => simp [uploadLoop] at h
  | cons f rest ih =>
      rw [uploadLoop] at h
      split at h
      · obtain ⟨g, hg, hrest⟩ := ih h
        exact ⟨g, List.mem_cons_of_mem _ hg, hrest⟩
      · split at h
        · rename_i val hval
          split at h
          · obtain ⟨g, hg, hrest⟩ := ih h
            exact ⟨g, List.mem_cons_of_mem _ hg, hrest⟩
          · rename_i s0 k heq
            cases h
            obtain ⟨hdry, hresp, h409⟩ := upload_error_elim heq
            refine ⟨f, List.mem_cons_self _ _, ?_, hdry, hresp, h409⟩
            intro hnone
            rw [hnone] at hval
            simp [edit_fit] at hval
        · obtain ⟨g, hg, hrest⟩ := ih h
          exact ⟨g, List.mem_cons_of_mem _ hg, hrest⟩

theorem uploadLoop_step_no_fail {env : Env} {g : String} {gs : List String}
    {st : BatchState}
    (hg : env.decode g = none ∨ env.resp g = UploadResp.ok ∨
      env.resp g = UploadResp.httpErr 409) :
    ∃ k, uploadLoop env false false (g :: gs) st =
      uploadLoop env false false gs
        { uploaded_files := record st.uploaded_files g,
          clientCalls := st.clientCalls + k } := by
  rw [uploadLoop]
  simp only [if_neg (by simp : ¬ (false = true))]
  rcases hg with hgnone | hgok | hg409
  · rw [hgnone]
    exact ⟨0, rfl⟩
  · cases hd : env.decode g with
    | none => exact ⟨0, rfl⟩
    | some ff =>
        rw [hgok]
        exact ⟨1, rfl⟩
  · cases hd : env.decode g with
    | none => exact ⟨0, rfl⟩
    | some ff =>
        rw [hg409]
        exact ⟨1, rfl⟩

theorem uploadLoop_hard_fail_after {env : Env} {s : Nat} {f : String}
    {pre rest : List String} {st : BatchState}
    (hpre : ∀ g ∈ pre, env.decode g = none ∨ env.resp g = UploadResp.ok ∨
      env.resp g = UploadResp.httpErr 409)
    (hdec : env.decode f ≠ none)
    (hresp : env.resp f = UploadResp.httpErr s) (hs : s ≠ 409) :
    ∃ k, uploadLoop env false false (pre ++ f :: rest) st =
      Except.error (s, { uploaded_files := st.uploaded_files ++ pre,
                         clientCalls := k }) := by
  revert hpre
  induction pre generalizing st with
  | nil =>
      intro hpre
      obtain ⟨ff, hff⟩ := Option.ne_none_iff_exists'.mp hdec
      refine ⟨st.clientCalls + 1, ?_⟩
      rw [List.nil_append, uploadLoop]
      simp only [if_neg (by simp : ¬ (false = true))]
      rw [hff, hresp]
      simp [edit_fit, upload, hs]
  | cons g pre' ih =>
      intro hpre
      obtain ⟨k1, hstep⟩ := @uploadLoop_step_no_fail env g (pre' ++ f :: rest)
        st (hpre g (List.mem_cons_self _ _))
      obtain ⟨k2, hk2⟩ := @ih
        { uploaded_files := record st.uploaded_files g,
          clientCalls := st.clientCalls + k1 }
        (fun x hx => hpre x (List.mem_cons_of_mem _ hx))
      refine ⟨k2, ?_⟩
      rw [List.cons_append, hstep, hk2]
      simp [record, List.append_assoc]

theorem not_mem_candidateIds_of_mem {p : String} {l : List String}
    (hp : p ∈ l) (dirStr : String) (fitFiles : List String) :
    p ∉ candidateIds dirStr fitFiles l := by
  intro hmem
  have hc := (List.mem_filter.mp hmem).2
  simp only [List.contains, Bool.not_eq_true', List.elem_eq_mem,
    decide_eq_false_iff_not] at hc
  exact hc hp

/-! ### Concrete test fixtures

Small closed environments used by witnesses and counterexamples. -/

/-- A one-record FIT file as produced by TrainingPeaks Virtual: a file-id
message with the DEVELOPMENT manufacturer. -/
def ffOne : FitFile := ⟨[⟨MsgKind.fileId, DEVELOPMENT, 0, 0, 0⟩]⟩

/-- Three decodable candidate files; the middle one receives a hard HTTP
500 error from the service, the first and last would succeed. -/
def envHard : Env :=
  { dirStr := "/d", fitFiles := ["a.fit", "b.fit", "c.fit"],
    decode := fun _ => some ffOne,
    resp := fun f => if f = "b.fit" then UploadResp.httpErr 500
      else UploadResp.ok }

/-- One decodable candidate file; the service always reports a conflict. -/
def envConflict : Env :=
  { dirStr := "/d", fitFiles := ["a.fit"],
    decode := fun _ => some ffOne,
    resp := fun _ => UploadResp.httpErr 409 }

/-- One decodable candidate file; the service would acknowledge. -/
def envDry : Env :=
  { dirStr := "/d", fitFiles := ["a.fit"],
    decode := fun _ => some ffOne,
    resp := fun _ => UploadResp.ok }

/-- One candidate file that fails to decode. -/
def envDecodeFail : Env :=
  { dirStr := "/d", fitFiles := ["a.fit"],
    decode := fun _ => none,
    resp := fun _ => UploadResp.ok }

/-! ### Claim theorems -/

/-- C2: for every decodable input file, `edit_fit` emits every message of
the decoded sequence into the output, preserving count and order: the
output has the same length as the input and the sequence of message kinds
is unchanged position by position, so no message kind is ever dropped. -/
theorem no_message_loss (ff : FitFile) :
    ∃ out, edit_fit (some ff) = some out ∧
      out.length = ff.records.length ∧
      out.map Message.kind = ff.records.map Message.kind := by
  refine ⟨ff.records.map rewriteMessage, rfl, by simp, ?_⟩
  rw [List.map_map]
  exact List.map_congr_left fun m _ => rewriteMessage_kind m

/-- C4: the attribution rewrite applies exactly the policy of
src/garmin.py:220-244: a file-id message is rewritten (product to
EDGE_830, manufacturer to GARMIN) precisely when its manufacturer is
DEVELOPMENT; a device-info message is rewritten (garmin_product and
product to EDGE_830, manufacturer to GARMIN) precisely when its
manufacturer is DEVELOPMENT, 0 or WAHOO_FITNESS; every other message kind
passes through unchanged. -/
theorem attribution_rewrite_policy (m : Message) :
    (m.kind = MsgKind.fileId →
      rewriteMessage m =
        if m.manufacturer = DEVELOPMENT then
          { m with product := EDGE_830, manufacturer := GARMIN }
        else m) ∧
    (m.kind = MsgKind.deviceInfo →
      rewriteMessage m =
        if m.manufacturer = DEVELOPMENT ∨ m.manufacturer = 0 ∨
            m.manufacturer = WAHOO_FITNESS then
          { m with garmin_product := EDGE_830, product := EDGE_830,
                   manufacturer := GARMIN }
        else m) ∧
    (m.kind = MsgKind.other → rewriteMessage m = m) := by
  rcases m with ⟨k, man, p, g, t⟩
  cases k <;>
    refine ⟨fun h1 => ?_, fun h2 => ?_, fun h3 => ?_⟩ <;>
    first
      | rfl
      | (exact absurd ‹_› (by simp))

theorem attribution_rewrite_policy_witness :
    rewriteMessage ⟨MsgKind.deviceInfo, 0, 7, 8, 9⟩ =
      ⟨MsgKind.deviceInfo, GARMIN, EDGE_830, EDGE_830, 9⟩ := by
  have h := (attribution_rewrite_policy ⟨MsgKind.deviceInfo, 0, 7, 8, 9⟩).2.1 rfl
  simpa [DEVELOPMENT, WAHOO_FITNESS] using h

/-- C5: a message whose manufacturer is already GARMIN is a fixed point of
the rewrite, and the rewrite is idempotent on every message. -/
theorem rewrite_is_idempotent (m : Message) :
    (m.manufacturer = GARMIN → rewriteMessage m = m) ∧
    rewriteMessage (rewriteMessage m) = rewriteMessage m := by
  rcases m with ⟨k, man, p, g, t⟩
  cases k with
  | fileId =>
      constructor
      · rintro rfl
        simp [rewriteMessage, GARMIN, DEVELOPMENT]
      · by_cases hman : man = 255 <;>
          simp [rewriteMessage, hman, GARMIN, DEVELOPMENT, EDGE_830]
  | deviceInfo =>
      constructor
      · rintro rfl
        simp [rewriteMessage, GARMIN, DEVELOPMENT, WAHOO_FITNESS]
      · by_cases hman : man = 255 ∨ man = 0 ∨ man = 32 <;>
          simp [rewriteMessage, hman, GARMIN, DEVELOPMENT, WAHOO_FITNESS,
            EDGE_830]
  | other => exact ⟨fun _ => rfl, rfl⟩

theorem rewrite_is_idempotent_witness :
    rewriteMessage ⟨MsgKind.deviceInfo, GARMIN, 5, 6, 7⟩ =
      ⟨MsgKind.deviceInfo, GARMIN, 5, 6, 7⟩ ∧
    rewriteMessage (rewriteMessage ⟨MsgKind.fileId, DEVELOPMENT, 5, 6, 7⟩) =
      rewriteMessage ⟨MsgKind.fileId, DEVELOPMENT, 5, 6, 7⟩ :=
  ⟨(rewrite_is_idempotent ⟨MsgKind.deviceInfo, GARMIN, 5, 6, 7⟩).1 rfl,
    (rewrite_is_idempotent ⟨MsgKind.fileId, DEVELOPMENT, 5, 6, 7⟩).2⟩

/-- C9 (amended): the candidate set is the globbed `*.fit` names with the
`_modified.fit`-suffixed and the already-ledgered ones removed, and the
stored identifier equals the plain file name whenever the directory
string does not occur inside `"/" ++ name` (the code deletes every
occurrence of `str(dir)` via `str.replace`, not just the leading one, so
the identifier is only guaranteed to be the directory-relative name under
that non-collision condition) and the name contains no path separator. -/
theorem candidates_filter_names (dirStr : String) (names uploaded : List String)
    (hocc : ∀ name ∈ names, ¬ dirStr.data <:+: ('/' :: name.data))
    (hsep : ∀ name ∈ names, '/' ∉ name.data ∧ '\\' ∉ name.data) :
    candidateIds dirStr names uploaded =
      ((names.filter (fun n => !endsWithModifiedFit n)).filter
        (fun n => !uploaded.contains n)) := by
  unfold candidateIds
  have hmap : names.map (fun name => normalizeName dirStr name) = names := by
    rw [List.map_congr_left
      (fun name hn => normalizeName_eq_self (hocc name hn)
        (hsep name hn).1 (hsep name hn).2)]
    exact List.map_id names
  rw [hmap]

theorem candidates_filter_names_witness :
    candidateIds "/d" ["a.fit", "b_modified.fit", "c.fit"] ["c.fit"] =
      ((["a.fit", "b_modified.fit", "c.fit"].filter
          (fun n => !endsWithModifiedFit n)).filter
        (fun n => !(["c.fit"].contains n))) :=
  candidates_filter_names "/d" ["a.fit", "b_modified.fit", "c.fit"] ["c.fit"]
    (by decide) (by decide)

/-- C9 (counterexample): the identifier stored for the file `data.fit` in
the directory `/data` is `.fit`, not the directory-relative name
`data.fit`: `"/data/data.fit".replace("/data", "")` deletes the second
occurrence of the directory string as well. -/
theorem candidate_not_relative_counterexample :
    candidateIds "/data" ["data.fit"] [] = [".fit"] ∧
    (".fit" : String) ≠ "data.fit" := by
  constructor
  · decide
  · decide

/-- C8 (amended): a recorded path round-trips through flush and load
(membership then holds), but `record` is a plain list append with no
dedup, so recording the same path twice grows the list by two; the
at-most-once discipline instead comes from `upload_all` excluding paths
already in the loaded ledger from the candidate list. -/
theorem ledger_list_semantics (l : List String) (p : String) :
    contains (load (flush (record l p))) p = true ∧
    (record (record l p) p).length = l.length + 2 ∧
    (∀ dirStr fitFiles, p ∈ l → p ∉ candidateIds dirStr fitFiles l) := by
  refine ⟨?_, by simp [record], fun dirStr fitFiles hp =>
    not_mem_candidateIds_of_mem hp dirStr fitFiles⟩
  simp [contains, load, flush, record, List.contains, List.elem_eq_mem]

theorem ledger_list_semantics_witness :
    contains (load (flush (record ["x.fit"] "p.fit"))) "p.fit" = true ∧
    (record (record ["x.fit"] "p.fit") "p.fit").length = 3 ∧
    "x.fit" ∉ candidateIds "/d" ["x.fit"] ["x.fit"] := by
  refine ⟨(ledger_list_semantics ["x.fit"] "p.fit").1, ?_, ?_⟩
  · have h := (ledger_list_semantics ["x.fit"] "p.fit").2.1
    simpa using h
  · exact (ledger_list_semantics ["x.fit"] "x.fit").2.2 "/d" ["x.fit"]
      (by decide)

/-- C8 (counterexample): recording the same path twice appends it twice —
the persisted list gains two entries, not one, and the path appears
twice. -/
theorem record_twice_counterexample :
    record (record ([] : List String) "a.fit") "a.fit" =
      ["a.fit", "a.fit"] ∧
    (record (record ([] : List String) "a.fit") "a.fit").length ≠
      ([] : List String).length + 1 := by
  constructor
  · rfl
  · decide

theorem upload_all_empty_char (env : Env) (disk0 : Option (List String))
    (pre dryrun : Bool)
    (hE : candidateIds env.dirStr env.fitFiles (disk0.getD []) = []) :
    upload_all env disk0 pre dryrun =
      { disk := some (disk0.getD []), raised := none,
        uploaded_files := disk0.getD [], clientCalls := 0 } := by
  simp [upload_all, load, hE]

theorem upload_all_ok_char (env : Env) (disk0 : Option (List String))
    (pre dryrun : Bool) (st : BatchState)
    (hE : candidateIds env.dirStr env.fitFiles (disk0.getD []) ≠ [])
    (hloop : uploadLoop env pre dryrun
        (candidateIds env.dirStr env.fitFiles (disk0.getD []))
        { uploaded_files := disk0.getD [], clientCalls := 0 } =
      Except.ok st) :
    upload_all env disk0 pre dryrun =
      { disk := if dryrun then some (disk0.getD []) else some st.uploaded_files,
        raised := none, uploaded_files := st.uploaded_files,
        clientCalls := st.clientCalls } := by
  simp only [upload_all, load, flush]
  rw [if_neg (by simpa [List.isEmpty_iff] using hE), hloop]

theorem upload_all_error_char (env : Env) (disk0 : Option (List String))
    (pre dryrun : Bool) (st : BatchState) (s : Nat)
    (hE : candidateIds env.dirStr env.fitFiles (disk0.getD []) ≠ [])
    (hloop : uploadLoop env pre dryrun
        (candidateIds env.dirStr env.fitFiles (disk0.getD []))
        { uploaded_files := disk0.getD [], clientCalls := 0 } =
      Except.error (s, st)) :
    upload_all env disk0 pre dryrun =
      { disk := some (disk0.getD []), raised := some s,
        uploaded_files := st.uploaded_files,
        clientCalls := st.clientCalls } := by
  simp only [upload_all, load]
  rw [if_neg (by simpa [List.isEmpty_iff] using hE), hloop]

/-- C3 (amended): an edit-and-upload batch under dryrun never calls the
client's upload operation and never flushes: the on-disk ledger keeps its
pre-call content whenever the ledger file already existed, while the
in-memory list is still extended by every candidate.  However, when the
ledger file is absent before the call, `upload_all` creates it with empty
content even under dryrun (src/garmin.py:317-321). -/
theorem dryrun_ledger_and_calls (env : Env) (disk0 : Option (List String)) :
    (upload_all env disk0 false true).disk = some (disk0.getD []) ∧
    (upload_all env disk0 false true).clientCalls = 0 ∧
    (upload_all env disk0 false true).uploaded_files =
      disk0.getD [] ++ candidateIds env.dirStr env.fitFiles (disk0.getD []) ∧
    (∀ L, disk0 = some L →
      (upload_all env disk0 false true).disk = some L) := by
  by_cases hE : candidateIds env.dirStr env.fitFiles (disk0.getD []) = []
  · rw [upload_all_empty_char env disk0 false true hE]
    refine ⟨rfl, rfl, by simp [hE], ?_⟩
    rintro L rfl
    rfl
  · have hchar := upload_all_ok_char env disk0 false true
      { uploaded_files :=
          disk0.getD [] ++ candidateIds env.dirStr env.fitFiles (disk0.getD []),
        clientCalls := 0 } hE uploadLoop_dryrun
    rw [hchar]
    refine ⟨rfl, rfl, rfl, ?_⟩
    rintro L rfl
    rfl

theorem dryrun_ledger_and_calls_witness :
    (upload_all envDry (some ["z.fit"]) false true).disk = some ["z.fit"] :=
  (dryrun_ledger_and_calls envDry (some ["z.fit"])).2.2.2 ["z.fit"] rfl

/-- C3 (counterexample): for a directory whose ledger file is absent
before the call, a dryrun batch still creates the ledger file with empty
content, so the on-disk state is not byte-identical to the pre-call
state. -/
theorem dryrun_creates_ledger_counterexample :
    (upload_all envDry none false true).disk = some [] ∧
    (upload_all envDry none false true).disk ≠ none := by
  constructor
  · rfl
  · decide

/-- C6: with an upload client that reports a conflict (HTTP 409) for every
file, the batch completes without any raised error, every candidate file
is recorded in the ledger, and the full list is flushed to disk: a
conflict is treated as a success. -/
theorem conflict_treated_as_success (env : Env) (disk0 : Option (List String))
    (h : ∀ f, env.resp f = UploadResp.httpErr 409) :
    (upload_all env disk0 false false).raised = none ∧
    (upload_all env disk0 false false).uploaded_files =
      disk0.getD [] ++ candidateIds env.dirStr env.fitFiles (disk0.getD []) ∧
    (upload_all env disk0 false false).disk =
      some (upload_all env disk0 false false).uploaded_files ∧
    (∀ f ∈ candidateIds env.dirStr env.fitFiles (disk0.getD []),
      contains (upload_all env disk0 false false).uploaded_files f = true) := by
  by_cases hE : candidateIds env.dirStr env.fitFiles (disk0.getD []) = []
  · rw [upload_all_empty_char env disk0 false false hE]
    refine ⟨rfl, by simp [hE], rfl, ?_⟩
    intro f hf
    rw [hE] at hf
    exact absurd hf (List.not_mem_nil f)
  · obtain ⟨k, hk⟩ := @uploadLoop_conflict env
      (candidateIds env.dirStr env.fitFiles (disk0.getD []))
      { uploaded_files := disk0.getD [], clientCalls := 0 } h
    rw [upload_all_ok_char env disk0 false false _ hE hk]
    refine ⟨rfl, rfl, rfl, ?_⟩
    intro f hf
    simp only [contains, List.contains, List.elem_eq_mem, decide_eq_true_eq]
    exact List.mem_append_right _ hf

theorem conflict_treated_as_success_witness :
    (upload_all envConflict (some ["old.fit"]) false false).raised = none ∧
    (upload_all envConflict (some ["old.fit"]) false false).uploaded_files =
      ["old.fit", "a.fit"] ∧
    contains ((upload_all envConflict
      (some ["old.fit"]) false false).uploaded_files) "a.fit" = true := by
  have h := conflict_treated_as_success envConflict (some ["old.fit"])
    (fun f => rfl)
  refine ⟨h.1, ?_, h.2.2.2 "a.fit" (by decide)⟩
  rw [h.2.1]
  rfl

/-- C7: a decode failure is reported, not raised (`edit_fit` returns
`none`), and never aborts the batch: when every candidate fails to
decode the batch completes with no raised error, no upload attempted,
and every file visited; and any raised error can only originate from a
candidate that decoded successfully and then hit a hard (non-409) upload
error. -/
theorem decode_failure_never_aborts (env : Env) (disk0 : Option (List String))
    (dryrun : Bool) (s : Nat) :
    edit_fit none = none ∧
    ((∀ f ∈ candidateIds env.dirStr env.fitFiles (disk0.getD []),
        env.decode f = none) →
      (upload_all env disk0 false dryrun).raised = none ∧
      (upload_all env disk0 false dryrun).uploaded_files =
        disk0.getD [] ++ candidateIds env.dirStr env.fitFiles (disk0.getD []) ∧
      (upload_all env disk0 false dryrun).clientCalls = 0) ∧
    ((upload_all env disk0 false dryrun).raised = some s →
      ∃ f ∈ candidateIds env.dirStr env.fitFiles (disk0.getD []),
        env.decode f ≠ none ∧ env.resp f = UploadResp.httpErr s ∧ s ≠ 409) := by
  refine ⟨rfl, ?_, ?_⟩
  · intro hall
    by_cases hE : candidateIds env.dirStr env.fitFiles (disk0.getD []) = []
    · rw [upload_all_empty_char env disk0 false dryrun hE]
      exact ⟨rfl, by simp [hE], rfl⟩
    · rw [upload_all_ok_char env disk0 false dryrun _ hE
        (uploadLoop_decode_failed hall)]
      exact ⟨rfl, rfl, rfl⟩
  · intro hr
    by_cases hE : candidateIds env.dirStr env.fitFiles (disk0.getD []) = []
    · rw [upload_all_empty_char env disk0 false dryrun hE] at hr
      exact absurd hr (by simp)
    · cases hloop : uploadLoop env false dryrun
          (candidateIds env.dirStr env.fitFiles (disk0.getD []))
          { uploaded_files := disk0.getD [], clientCalls := 0 } with
      | ok st =>
          rw [upload_all_ok_char env disk0 false dryrun st hE hloop] at hr
          exact absurd hr (by simp)
      | error e =>
          obtain ⟨s0, st⟩ := e
          rw [upload_all_error_char env disk0 false dryrun st s0 hE hloop]
            at hr
          simp only [Option.some.injEq] at hr
          subst hr
          obtain ⟨f, hf, hd, -, hresp, h409⟩ := uploadLoop_error_source hloop
          exact ⟨f, hf, hd, hresp, h409⟩

theorem decode_failure_never_aborts_witness :
    (upload_all envDecodeFail (some []) false false).raised = none ∧
    (upload_all envDecodeFail (some []) false false).uploaded_files =
      ["a.fit"] ∧
    (upload_all envDecodeFail (some []) false false).clientCalls = 0 := by
  have h := (decode_failure_never_aborts envDecodeFail (some []) false 0).2.1
    (fun f _ => rfl)
  refine ⟨h.1, ?_, h.2.2⟩
  rw [h.2.1]
  rfl

/-- C10: a candidate whose rewrite step fails (decode failure, `edit_fit`
returns `none`) is still appended to the in-memory uploaded list at the
end of its loop iteration; when the batch completes it is persisted at
the flush, and it is therefore excluded from the candidate list of every
future run over the resulting ledger — a decode-failed file is never
retried. -/
theorem decode_failed_file_still_recorded (env : Env)
    (disk0 : Option (List String)) (f : String) (fitFiles2 : List String)
    (hf : f ∈ candidateIds env.dirStr env.fitFiles (disk0.getD []))
    (hdec : env.decode f = none)
    (hok : (upload_all env disk0 false false).raised = none) :
    f ∈ (upload_all env disk0 false false).uploaded_files ∧
    (upload_all env disk0 false false).disk =
      some (upload_all env disk0 false false).uploaded_files ∧
    f ∉ candidateIds env.dirStr fitFiles2
      (upload_all env disk0 false false).uploaded_files := by
  have hE : candidateIds env.dirStr env.fitFiles (disk0.getD []) ≠ [] := by
    intro h0
    rw [h0] at hf
    exact absurd hf (List.not_mem_nil f)
  cases hloop : uploadLoop env false false
      (candidateIds env.dirStr env.fitFiles (disk0.getD []))
      { uploaded_files := disk0.getD [], clientCalls := 0 } with
  | ok st =>
      have hchar := upload_all_ok_char env disk0 false false st hE hloop
      have hup := uploadLoop_ok_uploaded hloop
      have hmem : f ∈ st.uploaded_files := by
        rw [hup]
        exact List.mem_append_right _ hf
      rw [hchar]
      exact ⟨hmem, rfl, not_mem_candidateIds_of_mem hmem env.dirStr fitFiles2⟩
  | error e =>
      obtain ⟨s0, st⟩ := e
      rw [upload_all_error_char env disk0 false false st s0 hE hloop] at hok
      exact absurd hok (by simp)

theorem decode_failed_file_still_recorded_witness :
    "a.fit" ∈ (upload_all envDecodeFail (some []) false false).uploaded_files ∧
    (upload_all envDecodeFail (some []) false false).disk =
      some (upload_all envDecodeFail (some []) false false).uploaded_files ∧
    "a.fit" ∉ candidateIds "/d" ["a.fit"]
      (upload_all envDecodeFail (some []) false false).uploaded_files := by
  have h := decode_failed_file_still_recorded envDecodeFail (some [])
    "a.fit" ["a.fit"] (by decide) rfl rfl
  exact h

/-- C1 (amended): the first hard (non-409) upload error in a batch — on a
candidate at any position, after any run of earlier candidates that
decoded-and-uploaded, hit a conflict, or failed decode — is not contained
to that file: the exception propagates out of `upload_all`, so the failed
file is not recorded (it was not in the loaded ledger and is not appended),
none of the remaining candidates is processed (the in-memory list holds
exactly the loaded ledger plus the earlier candidates), and the final
flush is skipped, so the on-disk ledger keeps its pre-loop content and
even the in-memory records of the earlier files in the batch are not
persisted. -/
theorem hard_upload_error_aborts_batch (env : Env)
    (disk0 : Option (List String)) (s : Nat) (pre : List String) (f : String)
    (rest : List String)
    (hc : candidateIds env.dirStr env.fitFiles (disk0.getD []) =
      pre ++ f :: rest)
    (hpre : ∀ g ∈ pre, env.decode g = none ∨ env.resp g = UploadResp.ok ∨
      env.resp g = UploadResp.httpErr 409)
    (hdec : env.decode f ≠ none)
    (hresp : env.resp f = UploadResp.httpErr s) (hs : s ≠ 409) :
    (upload_all env disk0 false false).raised = some s ∧
    (upload_all env disk0 false false).uploaded_files =
      disk0.getD [] ++ pre ∧
    f ∉ disk0.getD [] ∧
    (upload_all env disk0 false false).disk = some (disk0.getD []) := by
  obtain ⟨k, hloop⟩ := @uploadLoop_hard_fail_after env s f pre rest
    { uploaded_files := disk0.getD [], clientCalls := 0 } hpre hdec hresp hs
  have hf : f ∈ candidateIds env.dirStr env.fitFiles (disk0.getD []) := by
    rw [hc]
    exact List.mem_append_right _ (List.mem_cons_self _ _)
  have hnotin : f ∉ disk0.getD [] := fun hmem =>
    not_mem_candidateIds_of_mem hmem env.dirStr env.fitFiles hf
  rw [upload_all_error_char env disk0 false false _ s
    (by rw [hc]; simp) (by rw [hc]; exact hloop)]
  exact ⟨rfl, rfl, hnotin, rfl⟩

theorem hard_upload_error_aborts_batch_witness :
    (upload_all envHard (some []) false false).raised = some 500 ∧
    (upload_all envHard (some []) false false).uploaded_files = ["a.fit"] ∧
    "b.fit" ∉ ([] : List String) ∧
    (upload_all envHard (some []) false false).disk = some [] := by
  have h := hard_upload_error_aborts_batch envHard (some []) 500 ["a.fit"]
    "b.fit" ["c.fit"] (by decide) (by decide) (by decide) (by decide)
    (by decide)
  simpa using h

/-- C1 (counterexample): with three candidate files where the first
uploads successfully, the second hits a hard HTTP 500 error, and the third
would decode and upload successfully, the batch does not continue past the
failure: the error propagates out of `upload_all`, the second and third
files are never recorded, and the flush is skipped, so even the first
file's in-memory record is lost (the on-disk ledger still holds the
pre-call content). -/
theorem hard_error_batch_counterexample :
    (upload_all envHard (some []) false false).raised = some 500 ∧
    (upload_all envHard (some []) false false).uploaded_files = ["a.fit"] ∧
    "b.fit" ∉ (upload_all envHard (some []) false false).uploaded_files ∧
    "c.fit" ∉ (upload_all envHard (some []) false false).uploaded_files ∧
    (upload_all envHard (some []) false false).disk = some [] := by
  refine ⟨rfl, rfl, ?_, ?_, rfl⟩ <;> decide

end GarminFit
